import Mathlib

/-!
Formal model of the smartcran-logger reverse proxy (src/main.rs).

The development shallowly embeds the request-handling pipeline:

* the path classifier `parse_cran` together with its seven anchored
  regular-expression rules (RE_SRC, RE_ARCH, RE_WIN, RE_MAC, RE_IDX_RDS,
  RE_IDX_GZ, RE_IDX_TXT),
* the header sanitizer `strip_hop_headers`,
* the response construction (header copy via HeaderMap insert, then
  sanitizing),
* the control flow of the `proxy` handler (body policy, error statuses,
  log emission),
* the target-URL construction (`Url::set_path` / `Url::set_query`, which
  follow the WHATWG URL standard: percent-encoding and dot-segment
  collapsing).

Paths are modelled as `List Char` (wrapped into `String` at the API),
header maps as association lists in iteration order, byte bodies as
`List Nat`, fallible effects as `Except`.

Each anchored regex is embedded as a deterministic parser.  Every regex
in the source pairs greedy character classes with delimiters that are
excluded from the class (for example `([A-Za-z0-9.]+)_` or `([^/]+)/`),
so the backtracking regex semantics collapse to a unique decomposition;
the individual doc comments spell out the correspondence.  The class
`\d` is Unicode-aware in the regex crate; it is modelled by the ASCII
digit test, which is exact on every ASCII path and does not affect any
claim below (no claim depends on non-ASCII digits).
-/

/-- Drops the literal prefix `pre` from `s`, returning the remainder,
or `none` when `s` does not start with `pre`.  Used to model the
anchored `^literal` part of the regexes. -/
def dropPrefix? : List Char → List Char → Option (List Char)
  | [], s => some s
  | _ :: _, [] => none
  | p :: ps, c :: cs => if p = c then dropPrefix? ps cs else none

/-- Drops the literal suffix `suf` from `s`, returning the front part,
or `none` when `s` does not end with `suf`.  Models `literal$`. -/
def dropSuffix? (suf s : List Char) : Option (List Char) :=
  (dropPrefix? suf.reverse s.reverse).map List.reverse

theorem dropPrefix?_eq_some {p s r : List Char} :
    dropPrefix? p s = some r ↔ s = p ++ r := by
  induction p generalizing s with
  | nil => simp [dropPrefix?]
  | cons a p ih =>
    cases s with
    | nil => simp [dropPrefix?]
    | cons b t =>
      by_cases hab : a = b
      · subst hab
        simp [dropPrefix?, ih]
      · constructor
        · intro h
          rw [dropPrefix?, if_neg hab] at h
          exact absurd h (by simp)
        · intro h
          injection h with h1 _
          exact absurd h1.symm hab

theorem dropPrefix?_append (p r : List Char) :
    dropPrefix? p (p ++ r) = some r :=
  dropPrefix?_eq_some.mpr rfl

theorem dropSuffix?_eq_some {u s m : List Char} :
    dropSuffix? u s = some m ↔ s = m ++ u := by
  unfold dropSuffix?
  constructor
  · intro h
    cases hp : dropPrefix? u.reverse s.reverse with
    | none => simp [hp] at h
    | some w =>
      simp [hp] at h
      have hsrev := dropPrefix?_eq_some.mp hp
      subst h
      have : s.reverse.reverse = (u.reverse ++ w).reverse := by rw [hsrev]
      simpa using this
  · intro h
    subst h
    have : (m ++ u).reverse = u.reverse ++ m.reverse := by simp
    rw [this, dropPrefix?_append]
    simp

theorem dropSuffix?_append (u m : List Char) :
    dropSuffix? u (m ++ u) = some m :=
  dropSuffix?_eq_some.mpr rfl

/-- Character class `[A-Za-z0-9.]` of RE_SRC. -/
def isPkgChar (c : Char) : Bool := c.isAlphanum || c == '.'

/-- String literals used by the classifier, as char lists. -/
def preSrc : List Char := "/src/contrib/".toList

def preArch : List Char := "/src/contrib/Archive/".toList

def preWin : List Char := "/bin/windows/contrib/".toList

def preMac : List Char := "/bin/macosx/".toList

def preContrib : List Char := "/contrib/".toList

def preBin : List Char := "/bin/".toList

def sufTarGz : List Char := ".tar.gz".toList

def sufZip : List Char := ".zip".toList

def sufTgz : List Char := ".tgz".toList

def idxSrcFront : List Char := "/src/contrib".toList

/-- Matcher for `RE_SRC = ^/src/contrib/([A-Za-z0-9.]+)_([^/]+)\.tar\.gz$`,
returning the two captures.  The class `[A-Za-z0-9.]` excludes `_`, so
the first capture is forced to be the maximal leading class run and the
`_` right after it; `$` anchors `\.tar\.gz` to the last seven characters,
so the second capture is everything in between, required to be nonempty
and slash-free. -/
def matchSrc? (s : List Char) : Option (List Char × List Char) :=
  match dropPrefix? preSrc s with
  | none => none
  | some r =>
    match dropSuffix? sufTarGz r with
    | none => none
    | some m =>
      let pkg := m.takeWhile isPkgChar
      match m.dropWhile isPkgChar with
      | [] => none
      | c :: ver =>
        if c == '_' && !pkg.isEmpty && !ver.isEmpty && ver.all (fun d => d != '/') then
          some (pkg, ver)
        else none

/-- Matcher for
`RE_ARCH = ^/src/contrib/Archive/([^/]+)/[^/]+_([^/]+)\.tar\.gz$`.
`[^/]+` cannot cross a slash, so the first capture is the whole segment
after `Archive/`; everything after the next slash must be slash-free.
In the file part the first `[^/]+` is greedy, so the separating `_` is
the last underscore that still leaves a nonempty second capture before
the `.tar.gz` suffix; the search runs over the reversed middle. -/
def matchArch? (s : List Char) : Option (List Char × List Char) :=
  match dropPrefix? preArch s with
  | none => none
  | some t =>
    let pkgdir := t.takeWhile (fun c => c != '/')
    match t.dropWhile (fun c => c != '/') with
    | [] => none
    | _ :: file =>
      if pkgdir.isEmpty || file.any (fun c => c == '/') then none
      else
        match dropSuffix? sufTarGz file with
        | none => none
        | some mid =>
          match mid.reverse with
          | [] => none
          | c0 :: rt =>
            let bRev := c0 :: rt.takeWhile (fun c => c != '_')
            match rt.dropWhile (fun c => c != '_') with
            | [] => none
            | _ :: aRev =>
              if aRev.isEmpty then none else some (pkgdir, bRev.reverse)

/-- Shared tail parser for RE_WIN and RE_MAC after their `contrib/`
prefix: `(\d+\.\d+)/([^_]+)_([^/]+)SUF$`.  The digit runs are maximal
because `\d` excludes `.` and `/`; `[^_]+` stops at the first
underscore (it may contain slashes); the last capture is anchored
between that underscore and the trailing suffix and must be nonempty
and slash-free. -/
def ddPkgVer? (t : List Char) (suf : List Char) :
    Option (List Char × List Char × List Char) :=
  let d1 := t.takeWhile Char.isDigit
  match t.dropWhile Char.isDigit with
  | [] => none
  | c1 :: t2 =>
    if d1.isEmpty || c1 != '.' then none
    else
      let d2 := t2.takeWhile Char.isDigit
      match t2.dropWhile Char.isDigit with
      | [] => none
      | c2 :: rest =>
        if d2.isEmpty || c2 != '/' then none
        else
          let pkg := rest.takeWhile (fun c => c != '_')
          match rest.dropWhile (fun c => c != '_') with
          | [] => none
          | _ :: tl =>
            if pkg.isEmpty then none
            else
              match dropSuffix? suf tl with
              | none => none
              | some ver =>
                if ver.isEmpty || ver.any (fun c => c == '/') then none
                else some (d1 ++ '.' :: d2, pkg, ver)

/-- Matcher for
`RE_WIN = ^/bin/windows/contrib/(\d+\.\d+)/([^_]+)_([^/]+)\.zip$`. -/
def matchWin? (s : List Char) : Option (List Char × List Char × List Char) :=
  match dropPrefix? preWin s with
  | none => none
  | some t => ddPkgVer? t sufZip

/-- The `/contrib/...` tail attempt of RE_MAC at one split point. -/
def macContrib? (r : List Char) : Option (List Char × List Char × List Char) :=
  match dropPrefix? preContrib r with
  | none => none
  | some t => ddPkgVer? t sufTgz

/-- Scanner for the greedy `.*` of
`RE_MAC = ^/bin/macosx/.*/contrib/(\d+\.\d+)/([^_]+)_([^/]+)\.tgz$`.
The dot does not match a newline, and greediness prefers the longest
`.*`, i.e. the latest viable `/contrib/` occurrence, hence the deeper
recursive attempt is preferred. -/
def macScan : List Char → Option (List Char × List Char × List Char)
  | [] => macContrib? []
  | c :: rest => (if c == '\n' then none else macScan rest) <|> macContrib? (c :: rest)

/-- Matcher for RE_MAC. -/
def matchMac? (s : List Char) : Option (List Char × List Char × List Char) :=
  match dropPrefix? preMac s with
  | none => none
  | some t => macScan t

/-- Recognizer of the `bin/.*/contrib/\d+\.\d+` alternative of the
index regexes, applied to the part before `/PACKAGES...` (this part
still carries the leading slash of the pattern).  Parsing runs from the
right: the maximal trailing digit run, a dot, another digit run, the
literal `/contrib/`, then the front must be `/bin/` plus a newline-free
middle consumed by `.*`.  In any decomposition the digit runs are
delimited by `.` and `/`, so this right-to-left parse finds a match
exactly when one exists. -/
def binContribTail (front : List Char) : Bool :=
  let r := front.reverse
  let d2 := r.takeWhile Char.isDigit
  match r.dropWhile Char.isDigit with
  | [] => false
  | c1 :: r2 =>
    if d2.isEmpty || c1 != '.' then false
    else
      let d1 := r2.takeWhile Char.isDigit
      match dropPrefix? preContrib.reverse (r2.dropWhile Char.isDigit) with
      | none => false
      | some u =>
        if d1.isEmpty then false
        else
          match dropPrefix? preBin u.reverse with
          | none => false
          | some mid => mid.all (fun c => c != '\n')

/-- The group `(src/contrib|bin/.*/contrib/\d+\.\d+)` with its leading
slash, as used by the three index regexes. -/
def matchIdxFront (front : List Char) : Bool :=
  front == idxSrcFront || binContribTail front

/-- `RE_IDX_RDS = ^/(src/contrib|bin/.*/contrib/\d+\.\d+)/PACKAGES\.rds$`. -/
def matchRds (s : List Char) : Bool :=
  match dropSuffix? "/PACKAGES.rds".toList s with
  | some f => matchIdxFront f
  | none => false

/-- `RE_IDX_GZ = ^/(src/contrib|bin/.*/contrib/\d+\.\d+)/PACKAGES\.gz$`. -/
def matchGz (s : List Char) : Bool :=
  match dropSuffix? "/PACKAGES.gz".toList s with
  | some f => matchIdxFront f
  | none => false

/-- `RE_IDX_TXT = ^/(src/contrib|bin/.*/contrib/\d+\.\d+)/PACKAGES$`. -/
def matchTxt (s : List Char) : Bool :=
  match dropSuffix? "/PACKAGES".toList s with
  | some f => matchIdxFront f
  | none => false

/-- The `CranInfo` record of the source; in Rust the optional fields
default to `None` via `..Default::default()`. -/
structure CranInfo where
  artifact_type : String
  package : Option String := none
  version : Option String := none
  r_minor : Option String := none
  os : Option String := none
deriving DecidableEq, Repr

/-- The `unknown` fallback descriptor. -/
def unknownInfo : CranInfo := { artifact_type := "unknown" }

/-- The path classifier `parse_cran` of the source: the seven rules are
tried in program order (src, archive, windows, mac, PACKAGES.rds,
PACKAGES.gz, PACKAGES) with an exhaustive `unknown` fallback. -/
def parseCranList (s : List Char) : CranInfo :=
  match matchSrc? s with
  | some (pk, v) =>
    { artifact_type := "src_tar", package := some (String.mk pk), version := some (String.mk v) }
  | none =>
  match matchArch? s with
  | some (pk, v) =>
    { artifact_type := "archive_tar", package := some (String.mk pk), version := some (String.mk v) }
  | none =>
  match matchWin? s with
  | some (rm, pk, v) =>
    { artifact_type := "win_zip", package := some (String.mk pk), version := some (String.mk v),
      r_minor := some (String.mk rm), os := some "windows" }
  | none =>
  match matchMac? s with
  | some (rm, pk, v) =>
    { artifact_type := "mac_tgz", package := some (String.mk pk), version := some (String.mk v),
      r_minor := some (String.mk rm), os := some "macos" }
  | none =>
  if matchRds s then { artifact_type := "index_rds" }
  else if matchGz s then { artifact_type := "index_gz" }
  else if matchTxt s then { artifact_type := "index_text" }
  else unknownInfo

/-- The path classifier `parse_cran` of the source, on strings. -/
def parse_cran (p : String) : CranInfo := parseCranList p.toList

theorem scenario_src_tar : parse_cran "/src/contrib/dplyr_1.1.4.tar.gz" =
    { artifact_type := "src_tar", package := some "dplyr", version := some "1.1.4" } := by decide

theorem scenario_win_zip : parse_cran "/bin/windows/contrib/4.3/xml2_1.3.6.zip" =
    { artifact_type := "win_zip", package := some "xml2", version := some "1.3.6",
      r_minor := some "4.3", os := some "windows" } := by decide

theorem scenario_index_gz : parse_cran "/src/contrib/PACKAGES.gz" = { artifact_type := "index_gz" } := by decide

theorem scenario_mac_tgz : parse_cran "/bin/macosx/big-sur-arm64/contrib/4.4/rlang_1.1.3.tgz" =
    { artifact_type := "mac_tgz", package := some "rlang", version := some "1.1.3",
      r_minor := some "4.4", os := some "macos" } := by decide

theorem scenario_archive_tar : parse_cran "/src/contrib/Archive/dplyr/dplyr_0.8.5.tar.gz" =
    { artifact_type := "archive_tar", package := some "dplyr", version := some "0.8.5" } := by decide

theorem scenario_empty_path : parse_cran "" = unknownInfo := by decide

theorem scenario_bin_index_text : parse_cran "/bin/windows/contrib/4.3/PACKAGES" = { artifact_type := "index_text" } := by decide

/-! ## The ordered rule table (for the precedence claim) -/

/-- Whether rule `i` (0-based: src, archive, windows, mac, rds, gz,
text) matches the path; out-of-range indices never match. -/
def ruleMatches (i : Nat) (s : String) : Bool :=
  match i with
  | 0 => (matchSrc? s.toList).isSome
  | 1 => (matchArch? s.toList).isSome
  | 2 => (matchWin? s.toList).isSome
  | 3 => (matchMac? s.toList).isSome
  | 4 => matchRds s.toList
  | 5 => matchGz s.toList
  | 6 => matchTxt s.toList
  | _ => false

/-- The descriptor each rule constructs from its captures. -/
def ruleDescr (i : Nat) (s : String) : CranInfo :=
  match i with
  | 0 =>
    match matchSrc? s.toList with
    | some (pk, v) =>
      { artifact_type := "src_tar", package := some (String.mk pk), version := some (String.mk v) }
    | none => unknownInfo
  | 1 =>
    match matchArch? s.toList with
    | some (pk, v) =>
      { artifact_type := "archive_tar", package := some (String.mk pk),
        version := some (String.mk v) }
    | none => unknownInfo
  | 2 =>
    match matchWin? s.toList with
    | some (rm, pk, v) =>
      { artifact_type := "win_zip", package := some (String.mk pk), version := some (String.mk v),
        r_minor := some (String.mk rm), os := some "windows" }
    | none => unknownInfo
  | 3 =>
    match matchMac? s.toList with
    | some (rm, pk, v) =>
      { artifact_type := "mac_tgz", package := some (String.mk pk), version := some (String.mk v),
        r_minor := some (String.mk rm), os := some "macos" }
    | none => unknownInfo
  | 4 => { artifact_type := "index_rds" }
  | 5 => { artifact_type := "index_gz" }
  | 6 => { artifact_type := "index_text" }
  | _ => unknownInfo

/-- Index of the first matching rule in the fixed precedence order. -/
def firstRule? (s : String) : Option Nat :=
  (List.range 7).find? (fun i => ruleMatches i s)

/-- C1: `parse_cran` evaluates the seven rules in the fixed precedence
order src_tar, archive_tar, win_zip, mac_tgz, index_rds, index_gz,
index_text and returns the descriptor of the first matching rule; when
no rule matches it returns the `unknown` descriptor with every optional
field empty.  Totality over arbitrary strings (empty, non-ASCII, or
arbitrarily long) is inherent: `parse_cran` is a total function on
`String`. -/
theorem claim_c1 (s : String) :
    parse_cran s =
      (match firstRule? s with
       | some i => ruleDescr i s
       | none =>
         { artifact_type := "unknown", package := none, version := none,
           r_minor := none, os := none }) := by
  have hr : List.range 7 = [0, 1, 2, 3, 4, 5, 6] := rfl
  unfold parse_cran parseCranList firstRule?
  rw [hr]
  cases h0 : matchSrc? s.data with
  | some pv =>
    obtain ⟨pk, v⟩ := pv
    simp [List.find?, ruleMatches, ruleDescr, h0]
  | none =>
  cases h1 : matchArch? s.data with
  | some pv =>
    obtain ⟨pk, v⟩ := pv
    simp [List.find?, ruleMatches, ruleDescr, h0, h1]
  | none =>
  cases h2 : matchWin? s.data with
  | some pv =>
    obtain ⟨rm, pk, v⟩ := pv
    simp [List.find?, ruleMatches, ruleDescr, h0, h1, h2]
  | none =>
  cases h3 : matchMac? s.data with
  | some pv =>
    obtain ⟨rm, pk, v⟩ := pv
    simp [List.find?, ruleMatches, ruleDescr, h0, h1, h2, h3]
  | none =>
  cases h4 : matchRds s.data with
  | true => simp [List.find?, ruleMatches, ruleDescr, h0, h1, h2, h3, h4]
  | false =>
  cases h5 : matchGz s.data with
  | true => simp [List.find?, ruleMatches, ruleDescr, h0, h1, h2, h3, h4, h5]
  | false =>
  cases h6 : matchTxt s.data with
  | true => simp [List.find?, ruleMatches, ruleDescr, h0, h1, h2, h3, h4, h5, h6]
  | false =>
    simp [List.find?, ruleMatches, ruleDescr, h0, h1, h2, h3, h4, h5, h6, unknownInfo]

/-- The field-shape contract of each artifact type, as a decidable
predicate on descriptors. -/
def shapeOk (r : CranInfo) : Bool :=
  if r.artifact_type == "src_tar" || r.artifact_type == "archive_tar" then
    r.package.isSome && r.version.isSome && r.r_minor.isNone && r.os.isNone
  else if r.artifact_type == "win_zip" then
    r.package.isSome && r.version.isSome && r.r_minor.isSome && r.os == some "windows"
  else if r.artifact_type == "mac_tgz" then
    r.package.isSome && r.version.isSome && r.r_minor.isSome && r.os == some "macos"
  else if r.artifact_type == "index_rds" || r.artifact_type == "index_gz" ||
      r.artifact_type == "index_text" || r.artifact_type == "unknown" then
    r.package.isNone && r.version.isNone && r.r_minor.isNone && r.os.isNone
  else false

/-- C10: on every input path the artifact type of the returned
descriptor determines exactly which optional fields are populated:
src_tar and archive_tar carry package and version only; win_zip and
mac_tgz carry r_minor, package, version and the constant os `windows`
resp. `macos`; the three index types and unknown carry nothing. -/
theorem claim_c10 (s : String) : shapeOk (parse_cran s) = true := by
  unfold parse_cran parseCranList
  cases h0 : matchSrc? s.data with
  | some pv => obtain ⟨pk, v⟩ := pv; simp [shapeOk, h0]
  | none =>
  cases h1 : matchArch? s.data with
  | some pv => obtain ⟨pk, v⟩ := pv; simp [shapeOk, h0, h1]
  | none =>
  cases h2 : matchWin? s.data with
  | some pv => obtain ⟨rm, pk, v⟩ := pv; simp [shapeOk, h0, h1, h2]
  | none =>
  cases h3 : matchMac? s.data with
  | some pv => obtain ⟨rm, pk, v⟩ := pv; simp [shapeOk, h0, h1, h2, h3]
  | none =>
  cases h4 : matchRds s.data with
  | true => simp [shapeOk, h0, h1, h2, h3, h4]
  | false =>
  cases h5 : matchGz s.data with
  | true => simp [shapeOk, h0, h1, h2, h3, h4, h5]
  | false =>
  cases h6 : matchTxt s.data with
  | true => simp [shapeOk, h0, h1, h2, h3, h4, h5, h6]
  | false => simp [shapeOk, unknownInfo, h0, h1, h2, h3, h4, h5, h6]

/-- Splitting lemma: `takeWhile`/`dropWhile` on a list of the form
`a ++ c :: b` where every element of `a` satisfies the predicate and
`c` does not. -/
theorem takeWhile_append_cons {p : Char → Bool} :
    ∀ (a : List Char) (c : Char) (b : List Char), a.all p = true → p c = false →
      (a ++ c :: b).takeWhile p = a ∧ (a ++ c :: b).dropWhile p = c :: b := by
  intro a
  induction a with
  | nil =>
    intro c b _ hc
    simp [List.takeWhile, List.dropWhile, hc]
  | cons x xs ih =>
    intro c b ha hc
    rw [List.all_cons, Bool.and_eq_true] at ha
    have hx : p x = true := ha.1
    have hxs : xs.all p = true := ha.2
    have h := ih c b hxs hc
    constructor
    · simp [List.takeWhile, hx, h.1]
    · simp [List.dropWhile, hx, h.2]

/-- C9: every path of the shape `/src/contrib/<pkg>_<ver>.tar.gz` with
`pkg` a nonempty run over `[A-Za-z0-9.]` and `ver` a nonempty run of
non-slash characters is classified as src_tar with package and version
captured and r_minor and os left empty. -/
theorem claim_c9 (pkg ver : List Char)
    (h1 : pkg ≠ []) (h2 : pkg.all isPkgChar = true)
    (h3 : ver ≠ []) (h4 : ver.all (fun d => d != '/') = true) :
    parse_cran (String.mk (preSrc ++ (pkg ++ '_' :: (ver ++ sufTarGz)))) =
      { artifact_type := "src_tar", package := some (String.mk pkg),
        version := some (String.mk ver) } := by
  have e1 : dropPrefix? preSrc (preSrc ++ (pkg ++ '_' :: (ver ++ sufTarGz)))
      = some (pkg ++ '_' :: (ver ++ sufTarGz)) := dropPrefix?_append _ _
  have e2 : dropSuffix? sufTarGz (pkg ++ '_' :: (ver ++ sufTarGz))
      = some (pkg ++ '_' :: ver) := by
    rw [show pkg ++ '_' :: (ver ++ sufTarGz) = (pkg ++ '_' :: ver) ++ sufTarGz by simp]
    exact dropSuffix?_append _ _
  have hund : isPkgChar '_' = false := by decide
  have htw := takeWhile_append_cons pkg '_' ver h2 hund
  have hpke : pkg.isEmpty = false := by
    cases pkg with
    | nil => exact absurd rfl h1
    | cons x xs => rfl
  have hvre : ver.isEmpty = false := by
    cases ver with
    | nil => exact absurd rfl h3
    | cons x xs => rfl
  have hsrc : matchSrc? (preSrc ++ (pkg ++ '_' :: (ver ++ sufTarGz))) = some (pkg, ver) := by
    simp [matchSrc?, e1, e2, htw.2, htw.1, hpke, hvre, h4]
  show parseCranList (preSrc ++ (pkg ++ '_' :: (ver ++ sufTarGz))) = _
  unfold parseCranList
  rw [hsrc]

/-- Witness for C9: the end-to-end scenario
`/src/contrib/dplyr_1.1.4.tar.gz`. -/
theorem claim_c9_witness :
    parse_cran "/src/contrib/dplyr_1.1.4.tar.gz" =
      { artifact_type := "src_tar", package := some "dplyr", version := some "1.1.4" } := by
  have h := claim_c9 "dplyr".toList "1.1.4".toList (by decide) (by decide) (by decide) (by decide)
  exact h

/-! ## Structural consequences of each rule, for disjointness -/

/-- A successful RE_SRC match forces the shape
`/src/contrib/ <slash-free middle> .tar.gz`. -/
theorem src_shape {s : List Char} {pv : List Char × List Char}
    (h : matchSrc? s = some pv) :
    ∃ m, s = preSrc ++ (m ++ sufTarGz) ∧ ∀ c ∈ m, c ≠ '/' := by
  unfold matchSrc? at h
  cases hp : dropPrefix? preSrc s with
  | none => simp only [hp] at h; exact absurd h (by simp)
  | some r =>
    simp only [hp] at h
    cases hsuf : dropSuffix? sufTarGz r with
    | none => simp only [hsuf] at h; exact absurd h (by simp)
    | some m =>
      simp only [hsuf] at h
      cases hdw : m.dropWhile isPkgChar with
      | nil => simp only [hdw] at h; exact absurd h (by simp)
      | cons c ver =>
        simp only [hdw] at h
        by_cases hcond : (c == '_' && !(m.takeWhile isPkgChar).isEmpty && !ver.isEmpty &&
            ver.all (fun d => d != '/')) = true
        · refine ⟨m, ?_, ?_⟩
          · rw [dropPrefix?_eq_some.mp hp, dropSuffix?_eq_some.mp hsuf]
          · simp only [Bool.and_eq_true] at hcond
            obtain ⟨⟨⟨hc, -⟩, -⟩, hall⟩ := hcond
            have hceq : c = '_' := eq_of_beq hc
            intro x hx
            rw [← List.takeWhile_append_dropWhile isPkgChar m, hdw] at hx
            rcases List.mem_append.mp hx with hx | hx
            · have := List.mem_takeWhile_imp hx
              intro he
              rw [he] at this
              exact absurd this (by decide)
            · rcases List.mem_cons.mp hx with hx | hx
              · rw [hx, hceq]; decide
              · exact bne_iff_ne.mp (List.all_eq_true.mp hall x hx)
        · rw [if_neg hcond] at h
          exact absurd h (by simp)

theorem srcStartFact {s : List Char} {pv : List Char × List Char}
    (h : matchSrc? s = some pv) : preSrc <+: s := by
  obtain ⟨m, hs, -⟩ := src_shape h
  exact ⟨m ++ sufTarGz, hs.symm⟩

theorem src_suffix {s : List Char} {pv : List Char × List Char}
    (h : matchSrc? s = some pv) : sufTarGz <:+ s := by
  obtain ⟨m, hs, -⟩ := src_shape h
  exact ⟨preSrc ++ m, by rw [hs]; simp⟩

/-- A successful RE_ARCH match starts with `/src/contrib/Archive/` and
ends with `.tar.gz`. -/
theorem arch_facts {s : List Char} {pv : List Char × List Char}
    (h : matchArch? s = some pv) : preArch <+: s ∧ sufTarGz <:+ s := by
  unfold matchArch? at h
  cases hp : dropPrefix? preArch s with
  | none => simp only [hp] at h; exact absurd h (by simp)
  | some t =>
    simp only [hp] at h
    have hs : s = preArch ++ t := dropPrefix?_eq_some.mp hp
    cases hdw : t.dropWhile (fun c => c != '/') with
    | nil => simp only [hdw] at h; exact absurd h (by simp)
    | cons sl file =>
      simp only [hdw] at h
      by_cases hc1 : ((t.takeWhile (fun c => c != '/')).isEmpty ||
          file.any (fun c => c == '/')) = true
      · rw [if_pos hc1] at h
        exact absurd h (by simp)
      · rw [if_neg hc1] at h
        cases hsuf : dropSuffix? sufTarGz file with
        | none => simp only [hsuf] at h; exact absurd h (by simp)
        | some mid =>
          have hfile : file = mid ++ sufTarGz := dropSuffix?_eq_some.mp hsuf
          refine ⟨⟨t, hs.symm⟩, ?_⟩
          have h1 : sufTarGz <:+ file := ⟨mid, hfile.symm⟩
          have h2 : (sl :: file) <:+ t := by
            have hd := List.dropWhile_suffix (l := t) (fun c => c != '/')
            rwa [hdw] at hd
          have h3 : t <:+ s := ⟨preArch, hs.symm⟩
          exact ((h1.trans ((List.suffix_cons sl file).trans h2)).trans h3)

/-- A successful shared-tail parse ends with the given suffix. -/
theorem ddPkgVer?_suffix {t suf : List Char} {x : List Char × List Char × List Char}
    (h : ddPkgVer? t suf = some x) : suf <:+ t := by
  unfold ddPkgVer? at h
  cases h1 : t.dropWhile Char.isDigit with
  | nil => simp only [h1] at h; exact absurd h (by simp)
  | cons c1 t2 =>
    simp only [h1] at h
    by_cases hc1 : ((t.takeWhile Char.isDigit).isEmpty || c1 != '.') = true
    · rw [if_pos hc1] at h; exact absurd h (by simp)
    · rw [if_neg hc1] at h
      cases h2 : t2.dropWhile Char.isDigit with
      | nil => simp only [h2] at h; exact absurd h (by simp)
      | cons c2 rest =>
        simp only [h2] at h
        by_cases hc2 : ((t2.takeWhile Char.isDigit).isEmpty || c2 != '/') = true
        · rw [if_pos hc2] at h; exact absurd h (by simp)
        · rw [if_neg hc2] at h
          cases h3 : rest.dropWhile (fun c => c != '_') with
          | nil => simp only [h3] at h; exact absurd h (by simp)
          | cons u tl =>
            simp only [h3] at h
            by_cases hc3 : (rest.takeWhile (fun c => c != '_')).isEmpty = true
            · rw [if_pos hc3] at h; exact absurd h (by simp)
            · rw [if_neg hc3] at h
              cases h4 : dropSuffix? suf tl with
              | none => simp only [h4] at h; exact absurd h (by simp)
              | some ver =>
                have s1 : suf <:+ tl := ⟨ver, (dropSuffix?_eq_some.mp h4).symm⟩
                have s2 : (u :: tl) <:+ rest := by
                  have hd := List.dropWhile_suffix (l := rest) (fun c => c != '_')
                  rwa [h3] at hd
                have s3 : (c2 :: rest) <:+ t2 := by
                  have hd := List.dropWhile_suffix (l := t2) Char.isDigit
                  rwa [h2] at hd
                have s4 : (c1 :: t2) <:+ t := by
                  have hd := List.dropWhile_suffix (l := t) Char.isDigit
                  rwa [h1] at hd
                exact (((s1.trans ((List.suffix_cons u tl).trans s2)).trans
                  ((List.suffix_cons c2 rest).trans s3)).trans
                  ((List.suffix_cons c1 t2).trans s4))

theorem win_facts {s : List Char} {x : List Char × List Char × List Char}
    (h : matchWin? s = some x) : preWin <+: s ∧ sufZip <:+ s := by
  unfold matchWin? at h
  cases hp : dropPrefix? preWin s with
  | none => simp only [hp] at h; exact absurd h (by simp)
  | some t =>
    simp only [hp] at h
    have hs : s = preWin ++ t := dropPrefix?_eq_some.mp hp
    exact ⟨⟨t, hs.symm⟩, (ddPkgVer?_suffix h).trans ⟨preWin, hs.symm⟩⟩

theorem macScan_elim {x : List Char × List Char × List Char} :
    ∀ t, macScan t = some x → ∃ r, r <:+ t ∧ macContrib? r = some x := by
  intro t
  induction t with
  | nil => intro h; exact ⟨[], List.nil_suffix, h⟩
  | cons c rest ih =>
    intro h
    unfold macScan at h
    cases hif : (if c == '\n' then none else macScan rest) with
    | some y =>
      rw [hif] at h
      simp only [Option.some_orElse] at h
      by_cases hc : (c == '\n') = true
      · rw [if_pos hc] at hif; exact absurd hif (by simp)
      · rw [if_neg hc] at hif
        obtain ⟨r, hr, hm⟩ := ih (by rw [hif, h])
        exact ⟨r, hr.trans (List.suffix_cons c rest), hm⟩
    | none =>
      rw [hif] at h
      simp only [Option.none_orElse] at h
      exact ⟨c :: rest, List.suffix_refl _, h⟩

theorem mac_facts {s : List Char} {x : List Char × List Char × List Char}
    (h : matchMac? s = some x) : preMac <+: s ∧ sufTgz <:+ s := by
  unfold matchMac? at h
  cases hp : dropPrefix? preMac s with
  | none => simp only [hp] at h; exact absurd h (by simp)
  | some t =>
    simp only [hp] at h
    have hs : s = preMac ++ t := dropPrefix?_eq_some.mp hp
    obtain ⟨r, hr, hm⟩ := macScan_elim t h
    unfold macContrib? at hm
    cases hq : dropPrefix? preContrib r with
    | none => rw [hq] at hm; exact absurd hm (by simp)
    | some t2 =>
      rw [hq] at hm
      have hrt : r = preContrib ++ t2 := dropPrefix?_eq_some.mp hq
      have h1 : sufTgz <:+ t2 := ddPkgVer?_suffix hm
      have h2 : t2 <:+ r := ⟨preContrib, hrt.symm⟩
      have h3 : t <:+ s := ⟨preMac, hs.symm⟩
      exact ⟨⟨t, hs.symm⟩, ((h1.trans h2).trans hr).trans h3⟩

theorem rds_suffix {s : List Char} (h : matchRds s = true) :
    "/PACKAGES.rds".toList <:+ s := by
  unfold matchRds at h
  cases hsuf : dropSuffix? "/PACKAGES.rds".toList s with
  | none => simp only [hsuf] at h; exact absurd h (by simp)
  | some f => exact ⟨f, (dropSuffix?_eq_some.mp hsuf).symm⟩

theorem gz_suffix {s : List Char} (h : matchGz s = true) :
    "/PACKAGES.gz".toList <:+ s := by
  unfold matchGz at h
  cases hsuf : dropSuffix? "/PACKAGES.gz".toList s with
  | none => simp only [hsuf] at h; exact absurd h (by simp)
  | some f => exact ⟨f, (dropSuffix?_eq_some.mp hsuf).symm⟩

theorem txt_suffix {s : List Char} (h : matchTxt s = true) :
    "/PACKAGES".toList <:+ s := by
  unfold matchTxt at h
  cases hsuf : dropSuffix? "/PACKAGES".toList s with
  | none => simp only [hsuf] at h; exact absurd h (by simp)
  | some f => exact ⟨f, (dropSuffix?_eq_some.mp hsuf).symm⟩

/-- Two prefixes of the same list are comparable; incomparable literal
prefixes therefore cannot coexist. -/
theorem prefix_conflict {p q s : List Char} (hp : p <+: s) (hq : q <+: s)
    (h1 : ¬ p <+: q) (h2 : ¬ q <+: p) : False := by
  rcases List.prefix_or_prefix_of_prefix hp hq with h | h
  · exact h1 h
  · exact h2 h

/-- Two suffixes of the same list are comparable; incomparable literal
suffixes therefore cannot coexist. -/
theorem suffix_conflict {u v s : List Char} (hu : u <:+ s) (hv : v <:+ s)
    (h1 : ¬ u <:+ v) (h2 : ¬ v <:+ u) : False := by
  rcases List.suffix_or_suffix_of_suffix hu hv with h | h
  · exact h1 h
  · exact h2 h

/-! ## Pairwise disjointness of the seven rules -/

theorem disj01 {s : List Char} (h0 : (matchSrc? s).isSome = true)
    (h1 : (matchArch? s).isSome = true) : False := by
  obtain ⟨a, ha⟩ := Option.isSome_iff_exists.mp h0
  obtain ⟨b, hb⟩ := Option.isSome_iff_exists.mp h1
  obtain ⟨m, hs, hm⟩ := src_shape ha
  obtain ⟨t, ht⟩ := (arch_facts hb).1
  have harch : preArch = preSrc ++ "Archive/".toList := by decide
  rw [hs, harch, List.append_assoc] at ht
  have hmt := List.append_cancel_left ht
  have hsl : ('/' : Char) ∈ m ++ sufTarGz := by
    rw [← hmt]
    exact List.mem_append_left _ (by decide)
  rcases List.mem_append.mp hsl with h | h
  · exact hm _ h rfl
  · exact absurd h (by decide)

theorem disj02 {s : List Char} (h0 : (matchSrc? s).isSome = true)
    (h2 : (matchWin? s).isSome = true) : False := by
  obtain ⟨a, ha⟩ := Option.isSome_iff_exists.mp h0
  obtain ⟨b, hb⟩ := Option.isSome_iff_exists.mp h2
  exact prefix_conflict (srcStartFact ha) (win_facts hb).1 (by decide) (by decide)

theorem disj03 {s : List Char} (h0 : (matchSrc? s).isSome = true)
    (h3 : (matchMac? s).isSome = true) : False := by
  obtain ⟨a, ha⟩ := Option.isSome_iff_exists.mp h0
  obtain ⟨b, hb⟩ := Option.isSome_iff_exists.mp h3
  exact prefix_conflict (srcStartFact ha) (mac_facts hb).1 (by decide) (by decide)

theorem disj04 {s : List Char} (h0 : (matchSrc? s).isSome = true)
    (h4 : matchRds s = true) : False := by
  obtain ⟨a, ha⟩ := Option.isSome_iff_exists.mp h0
  exact suffix_conflict (src_suffix ha) (rds_suffix h4) (by decide) (by decide)

theorem disj05 {s : List Char} (h0 : (matchSrc? s).isSome = true)
    (h5 : matchGz s = true) : False := by
  obtain ⟨a, ha⟩ := Option.isSome_iff_exists.mp h0
  exact suffix_conflict (src_suffix ha) (gz_suffix h5) (by decide) (by decide)

theorem disj06 {s : List Char} (h0 : (matchSrc? s).isSome = true)
    (h6 : matchTxt s = true) : False := by
  obtain ⟨a, ha⟩ := Option.isSome_iff_exists.mp h0
  exact suffix_conflict (src_suffix ha) (txt_suffix h6) (by decide) (by decide)

theorem disj12 {s : List Char} (h1 : (matchArch? s).isSome = true)
    (h2 : (matchWin? s).isSome = true) : False := by
  obtain ⟨a, ha⟩ := Option.isSome_iff_exists.mp h1
  obtain ⟨b, hb⟩ := Option.isSome_iff_exists.mp h2
  exact prefix_conflict (arch_facts ha).1 (win_facts hb).1 (by decide) (by decide)

theorem disj13 {s : List Char} (h1 : (matchArch? s).isSome = true)
    (h3 : (matchMac? s).isSome = true) : False := by
  obtain ⟨a, ha⟩ := Option.isSome_iff_exists.mp h1
  obtain ⟨b, hb⟩ := Option.isSome_iff_exists.mp h3
  exact prefix_conflict (arch_facts ha).1 (mac_facts hb).1 (by decide) (by decide)

theorem disj14 {s : List Char} (h1 : (matchArch? s).isSome = true)
    (h4 : matchRds s = true) : False := by
  obtain ⟨a, ha⟩ := Option.isSome_iff_exists.mp h1
  exact suffix_conflict (arch_facts ha).2 (rds_suffix h4) (by decide) (by decide)

theorem disj15 {s : List Char} (h1 : (matchArch? s).isSome = true)
    (h5 : matchGz s = true) : False := by
  obtain ⟨a, ha⟩ := Option.isSome_iff_exists.mp h1
  exact suffix_conflict (arch_facts ha).2 (gz_suffix h5) (by decide) (by decide)

theorem disj16 {s : List Char} (h1 : (matchArch? s).isSome = true)
    (h6 : matchTxt s = true) : False := by
  obtain ⟨a, ha⟩ := Option.isSome_iff_exists.mp h1
  exact suffix_conflict (arch_facts ha).2 (txt_suffix h6) (by decide) (by decide)

theorem disj23 {s : List Char} (h2 : (matchWin? s).isSome = true)
    (h3 : (matchMac? s).isSome = true) : False := by
  obtain ⟨a, ha⟩ := Option.isSome_iff_exists.mp h2
  obtain ⟨b, hb⟩ := Option.isSome_iff_exists.mp h3
  exact prefix_conflict (win_facts ha).1 (mac_facts hb).1 (by decide) (by decide)

theorem disj24 {s : List Char} (h2 : (matchWin? s).isSome = true)
    (h4 : matchRds s = true) : False := by
  obtain ⟨a, ha⟩ := Option.isSome_iff_exists.mp h2
  exact suffix_conflict (win_facts ha).2 (rds_suffix h4) (by decide) (by decide)

theorem disj25 {s : List Char} (h2 : (matchWin? s).isSome = true)
    (h5 : matchGz s = true) : False := by
  obtain ⟨a, ha⟩ := Option.isSome_iff_exists.mp h2
  exact suffix_conflict (win_facts ha).2 (gz_suffix h5) (by decide) (by decide)

theorem disj26 {s : List Char} (h2 : (matchWin? s).isSome = true)
    (h6 : matchTxt s = true) : False := by
  obtain ⟨a, ha⟩ := Option.isSome_iff_exists.mp h2
  exact suffix_conflict (win_facts ha).2 (txt_suffix h6) (by decide) (by decide)

theorem disj34 {s : List Char} (h3 : (matchMac? s).isSome = true)
    (h4 : matchRds s = true) : False := by
  obtain ⟨a, ha⟩ := Option.isSome_iff_exists.mp h3
  exact suffix_conflict (mac_facts ha).2 (rds_suffix h4) (by decide) (by decide)

theorem disj35 {s : List Char} (h3 : (matchMac? s).isSome = true)
    (h5 : matchGz s = true) : False := by
  obtain ⟨a, ha⟩ := Option.isSome_iff_exists.mp h3
  exact suffix_conflict (mac_facts ha).2 (gz_suffix h5) (by decide) (by decide)

theorem disj36 {s : List Char} (h3 : (matchMac? s).isSome = true)
    (h6 : matchTxt s = true) : False := by
  obtain ⟨a, ha⟩ := Option.isSome_iff_exists.mp h3
  exact suffix_conflict (mac_facts ha).2 (txt_suffix h6) (by decide) (by decide)

theorem disj45 {s : List Char} (h4 : matchRds s = true) (h5 : matchGz s = true) : False :=
  suffix_conflict (rds_suffix h4) (gz_suffix h5) (by decide) (by decide)

theorem disj46 {s : List Char} (h4 : matchRds s = true) (h6 : matchTxt s = true) : False :=
  suffix_conflict (rds_suffix h4) (txt_suffix h6) (by decide) (by decide)

theorem disj56 {s : List Char} (h5 : matchGz s = true) (h6 : matchTxt s = true) : False :=
  suffix_conflict (gz_suffix h5) (txt_suffix h6) (by decide) (by decide)

/-- C2: no input string matches two of the seven classifier rules; the
patterns are pairwise structurally disjoint.  Indices outside 0..6 match
nothing, so no range hypothesis is needed. -/
theorem claim_c2 (s : String) (i j : Nat)
    (hi : ruleMatches i s = true) (hj : ruleMatches j s = true) : i = j := by
  rcases i with _ | _ | _ | _ | _ | _ | _ | i <;>
    rcases j with _ | _ | _ | _ | _ | _ | _ | j <;>
    first
      | rfl
      | (exact absurd hi Bool.false_ne_true)
      | (exact absurd hj Bool.false_ne_true)
      | (exact (disj01 hi hj).elim)
      | (exact (disj01 hj hi).elim)
      | (exact (disj02 hi hj).elim)
      | (exact (disj02 hj hi).elim)
      | (exact (disj03 hi hj).elim)
      | (exact (disj03 hj hi).elim)
      | (exact (disj04 hi hj).elim)
      | (exact (disj04 hj hi).elim)
      | (exact (disj05 hi hj).elim)
      | (exact (disj05 hj hi).elim)
      | (exact (disj06 hi hj).elim)
      | (exact (disj06 hj hi).elim)
      | (exact (disj12 hi hj).elim)
      | (exact (disj12 hj hi).elim)
      | (exact (disj13 hi hj).elim)
      | (exact (disj13 hj hi).elim)
      | (exact (disj14 hi hj).elim)
      | (exact (disj14 hj hi).elim)
      | (exact (disj15 hi hj).elim)
      | (exact (disj15 hj hi).elim)
      | (exact (disj16 hi hj).elim)
      | (exact (disj16 hj hi).elim)
      | (exact (disj23 hi hj).elim)
      | (exact (disj23 hj hi).elim)
      | (exact (disj24 hi hj).elim)
      | (exact (disj24 hj hi).elim)
      | (exact (disj25 hi hj).elim)
      | (exact (disj25 hj hi).elim)
      | (exact (disj26 hi hj).elim)
      | (exact (disj26 hj hi).elim)
      | (exact (disj34 hi hj).elim)
      | (exact (disj34 hj hi).elim)
      | (exact (disj35 hi hj).elim)
      | (exact (disj35 hj hi).elim)
      | (exact (disj36 hi hj).elim)
      | (exact (disj36 hj hi).elim)
      | (exact (disj45 hi hj).elim)
      | (exact (disj45 hj hi).elim)
      | (exact (disj46 hi hj).elim)
      | (exact (disj46 hj hi).elim)
      | (exact (disj56 hi hj).elim)
      | (exact (disj56 hj hi).elim)

/-- Witness for C2: rule 0 (src_tar) does match a concrete path, and the
theorem applied at that path yields 0 = 0. -/
theorem claim_c2_witness :
    ruleMatches 0 "/src/contrib/dplyr_1.1.4.tar.gz" = true ∧ (0 : Nat) = 0 :=
  ⟨by decide, claim_c2 "/src/contrib/dplyr_1.1.4.tar.gz" 0 0 (by decide) (by decide)⟩

/-! ## Header sanitizer and response construction -/

/-- A header entry: name and value.  The http HeaderMap stores names
ASCII-lowercased and keyed case-insensitively; the model keeps the raw
name in the entry and compares ASCII-lowercased names, which gives the
same observable behaviour. -/
abbrev Header := String × String

/-- ASCII lowercasing of a header name (`Char.toLower` folds only the
ASCII uppercase letters, matching eq_ignore_ascii_case). -/
def lowerAscii (s : String) : String := String.mk (s.toList.map Char.toLower)

/-- The eight names removed by `strip_hop_headers`, in program order. -/
def hopNames : List String :=
  ["connection", "proxy-connection", "keep-alive", "transfer-encoding",
   "te", "upgrade", "trailer", "host"]

/-- Whether a header name is one of the denied names, case-insensitively. -/
def isHopName (n : String) : Bool := hopNames.contains (lowerAscii n)

/-- `HeaderMap::remove(name)`: drops every entry whose name equals the
given (lowercase) name, case-insensitively. -/
def removeName (hs : List Header) (n : String) : List Header :=
  hs.filter (fun h => !(lowerAscii h.fst == n))

/-- The `strip_hop_headers` function of the source: removes the eight
hop-by-hop names one by one from the header collection. -/
def strip_hop_headers (hs : List Header) : List Header :=
  hopNames.foldl removeName hs

theorem foldl_removeName (names : List String) (hs : List Header) :
    names.foldl removeName hs
      = hs.filter (fun h => !(names.contains (lowerAscii h.fst))) := by
  induction names generalizing hs with
  | nil => simp
  | cons n ns ih =>
    simp only [List.foldl]
    rw [ih (removeName hs n)]
    unfold removeName
    rw [List.filter_filter]
    apply List.filter_congr
    intro x _
    cases hc : lowerAscii x.fst == n <;>
      cases hd : ns.contains (lowerAscii x.fst) <;>
      simp only [List.contains_cons, hc, hd, Bool.false_or, Bool.or_false, Bool.true_or,
        Bool.or_true, Bool.not_true, Bool.not_false, Bool.and_true, Bool.true_and,
        Bool.and_false, Bool.false_and]

/-- C3: the sanitizer removes, case-insensitively, exactly the entries
bearing one of the eight denied names: the result is the subsequence of
the input keeping every other entry unchanged, with duplicates and the
relative order of the survivors intact, and no denied name occurs in
the result. -/
theorem claim_c3 (hs : List Header) :
    strip_hop_headers hs = hs.filter (fun h => !(isHopName h.fst)) ∧
    ∀ h ∈ strip_hop_headers hs, isHopName h.fst = false := by
  have key : strip_hop_headers hs = hs.filter (fun h => !(isHopName h.fst)) :=
    foldl_removeName hopNames hs
  refine ⟨key, ?_⟩
  intro h hmem
  rw [key] at hmem
  have hb := (List.mem_filter.mp hmem).2
  rw [Bool.not_eq_true'] at hb
  exact hb

/-- Witness for C3 at a concrete header collection: denied names are
removed in any casing, the rest survive in order with duplicates. -/
theorem claim_c3_witness :
    strip_hop_headers
        [("Connection", "keep-alive"), ("accept", "gzip"), ("HOST", "x"),
         ("x-extra", "1"), ("accept", "gzip"), ("Transfer-Encoding", "chunked")]
      = [("accept", "gzip"), ("x-extra", "1"), ("accept", "gzip")] := by
  rw [(claim_c3 [("Connection", "keep-alive"), ("accept", "gzip"), ("HOST", "x"),
    ("x-extra", "1"), ("accept", "gzip"), ("Transfer-Encoding", "chunked")]).1]
  decide

/-- `HeaderMap::insert`: replaces the existing entry for the name
(removing every other value of that name) or appends a fresh entry.
The position of an existing key is kept, matching the map semantics at
the level of per-name values. -/
def insertHeader : List Header → String → String → List Header
  | [], n, v => [(n, v)]
  | h :: t, n, v =>
    if lowerAscii h.fst == lowerAscii n then (n, v) :: removeName t (lowerAscii n)
    else h :: insertHeader t n v

/-- The response-header copy loop of the handler:
`for (k, v) in resp.headers().iter() { out_headers.insert(k, v.clone()) }`
starting from an empty map.  The iterator yields one pair per value, so
repeated names reach `insert` several times and only the last value of
a name survives. -/
def copyHeaders (up : List Header) : List Header :=
  up.foldl (fun acc h => insertHeader acc h.fst h.snd) []

/-- Headers of the outbound response: copy all upstream pairs through
`insert`, then strip hop-by-hop names. -/
def outboundHeaders (up : List Header) : List Header :=
  strip_hop_headers (copyHeaders up)

/-- Status and headers of an HTTP response (the body is a lazy stream
and is piped through unchanged; it carries no header/status content). -/
structure HttpResp where
  status : Nat
  headers : List Header
deriving DecidableEq, Repr

/-- The response the handler sends back for an upstream response:
status copied verbatim, headers copied via `insert` and sanitized. -/
def buildResponse (r : HttpResp) : HttpResp :=
  { status := r.status, headers := outboundHeaders r.headers }

/-- The values carried by a name in a header collection,
case-insensitively, in order. -/
def valsOf (n : String) (hs : List Header) : List String :=
  (hs.filter (fun h => lowerAscii h.fst == lowerAscii n)).map Prod.snd

/-- Counterexample to C4 as stated: with a repeated upstream header
name the outbound header set is not the sanitized copy of all upstream
headers; the first of the two `set-cookie` values is lost by `insert`. -/
theorem claim_c4_cex :
    ¬ ((buildResponse { status := 200, headers := [("set-cookie", "a"), ("set-cookie", "b")] }).headers
      = strip_hop_headers [("set-cookie", "a"), ("set-cookie", "b")]) := by decide

theorem valsOf_cons (n : String) (h : Header) (t : List Header) :
    valsOf n (h :: t) =
      if lowerAscii h.fst = lowerAscii n then h.snd :: valsOf n t else valsOf n t := by
  by_cases e : lowerAscii h.fst = lowerAscii n
  · have eb : (lowerAscii h.fst == lowerAscii n) = true := by simp [e]
    simp [valsOf, List.filter, eb, e]
  · have eb : (lowerAscii h.fst == lowerAscii n) = false := by simp [e]
    simp [valsOf, List.filter, eb, e]

theorem removeName_cons (h : Header) (t : List Header) (m : String) :
    removeName (h :: t) m =
      if lowerAscii h.fst = m then removeName t m else h :: removeName t m := by
  by_cases e : lowerAscii h.fst = m
  · have eb : (lowerAscii h.fst == m) = true := by simp [e]
    simp [removeName, List.filter, eb, e]
  · have eb : (lowerAscii h.fst == m) = false := by simp [e]
    simp [removeName, List.filter, eb, e]

theorem valsOf_removeName (n m : String) (hs : List Header) :
    valsOf n (removeName hs m) =
      if lowerAscii n = m then [] else valsOf n hs := by
  induction hs with
  | nil => simp [valsOf, removeName]
  | cons h t ih =>
    rw [removeName_cons]
    by_cases e1 : lowerAscii h.fst = m
    · rw [if_pos e1, ih]
      by_cases e3 : lowerAscii n = m
      · simp [e3]
      · have e2 : ¬ lowerAscii h.fst = lowerAscii n := fun hx => e3 (hx.symm.trans e1)
        rw [if_neg e3, if_neg e3, valsOf_cons, if_neg e2]
    · rw [if_neg e1, valsOf_cons, valsOf_cons, ih]
      by_cases e2 : lowerAscii h.fst = lowerAscii n <;>
        by_cases e3 : lowerAscii n = m
      · exact absurd (e2.trans e3) e1
      · simp [e1, e2, e3]
      · simp [e1, e2, e3]
      · simp [e1, e2, e3]

theorem valsOf_insertHeader (n m v : String) (hs : List Header) :
    valsOf n (insertHeader hs m v) =
      if lowerAscii m = lowerAscii n then [v] else valsOf n hs := by
  induction hs with
  | nil =>
    by_cases e : lowerAscii m = lowerAscii n
    · have eb : (lowerAscii m == lowerAscii n) = true := by simp [e]
      simp [valsOf, insertHeader, List.filter, eb, e]
    · have eb : (lowerAscii m == lowerAscii n) = false := by simp [e]
      simp [valsOf, insertHeader, List.filter, eb, e]
  | cons h t ih =>
    unfold insertHeader
    by_cases e1 : lowerAscii h.fst = lowerAscii m
    · rw [if_pos (by simp [e1])]
      rw [valsOf_cons, valsOf_removeName]
      by_cases e2 : lowerAscii m = lowerAscii n
      · have c1 : lowerAscii (m, v).fst = lowerAscii n := e2
        rw [if_pos c1, if_pos e2.symm, if_pos e2]
      · have c1 : ¬ lowerAscii (m, v).fst = lowerAscii n := e2
        have e2s : ¬ lowerAscii n = lowerAscii m := fun hx => e2 hx.symm
        have e12 : ¬ lowerAscii h.fst = lowerAscii n := fun hx => e2 (e1.symm.trans hx)
        rw [if_neg c1, if_neg e2s, if_neg e2, valsOf_cons, if_neg e12]
    · rw [if_neg (by simp [e1])]
      rw [valsOf_cons, ih, valsOf_cons]
      by_cases e2 : lowerAscii h.fst = lowerAscii n <;>
        by_cases e3 : lowerAscii m = lowerAscii n
      · exact absurd (e2.trans e3.symm) e1
      · simp [e2, e3]
      · simp [e2, e3]
      · simp [e2, e3]

theorem valsOf_copyAux (n : String) :
    ∀ (up acc : List Header),
      valsOf n (up.foldl (fun a h => insertHeader a h.fst h.snd) acc) =
        (match (valsOf n up).getLast? with
         | some v => [v]
         | none => valsOf n acc) := by
  intro up
  induction up with
  | nil => intro acc; rfl
  | cons p t ih =>
    intro acc
    obtain ⟨m, v⟩ := p
    simp only [List.foldl]
    rw [ih (insertHeader acc m v), valsOf_cons]
    by_cases e : lowerAscii (m, v).fst = lowerAscii n
    · rw [if_pos e]
      have e' : lowerAscii m = lowerAscii n := e
      cases hvt : valsOf n t with
      | nil =>
        simp [valsOf_insertHeader, e']
      | cons w ws =>
        cases hgl : (w :: ws).getLast? with
        | none => simp at hgl
        | some z => simp [List.getLast?_cons_cons, hgl]
    · rw [if_neg e]
      have e' : ¬ lowerAscii m = lowerAscii n := e
      cases hvt : (valsOf n t).getLast? with
      | none => simp [hvt, valsOf_insertHeader, e']
      | some z => simp [hvt]

theorem valsOf_strip (n : String) (hs : List Header) :
    valsOf n (strip_hop_headers hs) = if isHopName n then [] else valsOf n hs := by
  rw [show strip_hop_headers hs
      = hs.filter (fun h => !(hopNames.contains (lowerAscii h.fst)))
    from foldl_removeName hopNames hs]
  induction hs with
  | nil => simp [valsOf]
  | cons h t ih =>
    by_cases hc : hopNames.contains (lowerAscii h.fst) = true
    · have hb : (!(hopNames.contains (lowerAscii h.fst))) = false := by rw [hc]; rfl
      simp only [List.filter, hb]
      rw [ih]
      by_cases hn : isHopName n = true
      · simp [hn]
      · have hne : ¬ lowerAscii h.fst = lowerAscii n := by
          intro hx
          apply hn
          unfold isHopName
          rw [← hx]
          exact hc
        simp [hn, valsOf_cons, hne]
    · have hcf : hopNames.contains (lowerAscii h.fst) = false := by
        cases hx : hopNames.contains (lowerAscii h.fst) with
        | false => rfl
        | true => exact absurd hx hc
      have hb : (!(hopNames.contains (lowerAscii h.fst))) = true := by rw [hcf]; rfl
      simp only [List.filter, hb]
      rw [valsOf_cons, valsOf_cons, ih]
      by_cases e2 : lowerAscii h.fst = lowerAscii n
      · have hn : isHopName n = false := by
          unfold isHopName
          rw [← e2]
          exact hcf
        simp [e2, hn]
      · simp [e2]

/-- C4 as amended: the outbound response carries exactly the upstream
status; its header set is the upstream headers with each repeated name
collapsed to its last upstream value (a consequence of copying through
HeaderMap insert) and then sanitized, so per name the outbound values
are empty for hop-by-hop names and the last upstream value otherwise. -/
theorem claim_c4 (r : HttpResp) :
    (buildResponse r).status = r.status ∧
    ∀ n : String,
      valsOf n (buildResponse r).headers =
        (if isHopName n then [] else (valsOf n r.headers).getLast?.toList) := by
  refine ⟨rfl, ?_⟩
  intro n
  show valsOf n (strip_hop_headers (copyHeaders r.headers)) = _
  rw [valsOf_strip]
  by_cases hn : isHopName n = true
  · simp [hn]
  · simp only [hn, if_false, Bool.false_eq_true, if_neg]
    unfold copyHeaders
    rw [valsOf_copyAux]
    cases hg : (valsOf n r.headers).getLast? with
    | none => simp [valsOf]
    | some z => simp

/-! ## Target URL construction: Url set_path / set_query (WHATWG) -/

/-- Uppercase hex digit, as used by WHATWG percent-encoding. -/
def pctHexDigit (n : Nat) : Char :=
  if n < 10 then Char.ofNat (48 + n) else Char.ofNat (55 + n)

/-- UTF-8 encoding of one scalar value (1 to 4 bytes). -/
def utf8Bytes (c : Char) : List Nat :=
  let n := c.toNat
  if n < 128 then [n]
  else if n < 2048 then [192 + n / 64, 128 + n % 64]
  else if n < 65536 then [224 + n / 4096, 128 + (n / 64) % 64, 128 + n % 64]
  else [240 + n / 262144, 128 + (n / 4096) % 64, 128 + (n / 64) % 64, 128 + n % 64]

/-- Percent-encode one character: UTF-8 bytes, each as a `%XX` triple. -/
def pctEncode (c : Char) : List Char :=
  (utf8Bytes c).flatMap (fun b => ['%', pctHexDigit (b / 16), pctHexDigit (b % 16)])

/-- The C0-control percent-encode set: C0 controls and code points
above tilde (so DEL and all non-ASCII). -/
def c0Enc (c : Char) : Bool := c.toNat ≤ 31 || c.toNat ≥ 127

/-- The WHATWG path percent-encode set (fragment set plus hash,
question mark and curly braces; backtick and braces written by code
point). -/
def pathEncSet (c : Char) : Bool :=
  c0Enc c || c == ' ' || c == '"' || c == '<' || c == '>' || c == Char.ofNat 96 ||
  c == '#' || c == '?' || c == Char.ofNat 123 || c == Char.ofNat 125

/-- The WHATWG special-query percent-encode set (query set plus the
apostrophe, code point 39): this is what `Url::set_query` applies for
an https base. -/
def specialQueryEncSet (c : Char) : Bool :=
  c0Enc c || c == ' ' || c == '"' || c == '#' || c == '<' || c == '>' ||
  c == Char.ofNat 39

/-- Percent-encode a path segment with the path set. -/
def encSeg (seg : List Char) : List Char :=
  seg.flatMap (fun c => if pathEncSet c then pctEncode c else [c])

/-- A single-dot path segment (`.` or a percent-encoded spelling),
case-insensitively. -/
def isSingleDotSeg (seg : List Char) : Bool :=
  let l := seg.map Char.toLower
  l == ['.'] || l == ['%', '2', 'e']

/-- A double-dot path segment (`..` or percent-encoded spellings),
case-insensitively. -/
def isDoubleDotSeg (seg : List Char) : Bool :=
  let l := seg.map Char.toLower
  l == ['.', '.'] || l == ['.', '%', '2', 'e'] || l == ['%', '2', 'e', '.'] ||
  l == ['%', '2', 'e', '%', '2', 'e']

/-- End-of-segment action of the WHATWG path state: double dot pops
the last segment, single dot is dropped, any other buffer is appended
percent-encoded; at end of input (no separator) the dot cases still
append an empty segment. -/
def flushSeg (acc : List (List Char)) (buf : List Char) (atSep : Bool) :
    List (List Char) :=
  if isDoubleDotSeg buf then
    (if atSep then acc.dropLast else acc.dropLast ++ [[]])
  else if isSingleDotSeg buf then
    (if atSep then acc else acc ++ [[]])
  else acc ++ [encSeg buf]

/-- The WHATWG path state over the remaining input, current segment
buffer and accumulated segments; for a special scheme both `/` and `\`
are segment separators. -/
def pathGo : List Char → List Char → List (List Char) → List (List Char)
  | [], buf, acc => flushSeg acc buf false
  | c :: rest, buf, acc =>
    if c == '/' || c == '\\' then pathGo rest [] (flushSeg acc buf true)
    else pathGo rest (buf ++ [c]) acc

/-- Serialization of a segment list (joined by slashes; the caller
prepends the leading slash). -/
def joinSegs : List (List Char) → List Char
  | [] => []
  | [s] => s
  | s :: ss => s ++ '/' :: joinSegs ss

/-- Model of `Url::set_path` for an https (special, non-file) base:
one leading separator is consumed by the path-start state, then the
path state processes segments, and the result serializes with a
leading slash. -/
def stripLeadSep : List Char → List Char
  | [] => []
  | c :: rest => if c == '/' || c == '\\' then rest else c :: rest

def setPathStr (p : String) : String :=
  String.mk ('/' :: joinSegs (pathGo (stripLeadSep p.toList) [] []))

/-- Model of `Url::set_query` for an https base: each character outside
the special-query set is kept, the rest are percent-encoded. -/
def setQueryStr (q : String) : String :=
  String.mk (q.toList.flatMap (fun c => if specialQueryEncSet c then pctEncode c else [c]))

/-- The components of a URL that the handler manipulates. -/
structure UrlT where
  scheme : String
  host : String
  port : Option Nat
  path : String
  query : Option String
deriving DecidableEq, Repr

/-- Target construction of the handler: clone the upstream base, then
`set_path(uri.path())` and `set_query(uri.query())`. -/
def buildTarget (base : UrlT) (p : String) (q : Option String) : UrlT :=
  { base with path := setPathStr p, query := q.map setQueryStr }

/-- The default upstream base `https://cloud.r-project.org`. -/
def cranBase : UrlT :=
  { scheme := "https", host := "cloud.r-project.org", port := none,
    path := "/", query := none }

/-- Counterexample to C7 as stated: the URL library normalizes dot
segments, so the request path `/a/../b` (a perfectly valid HTTP path)
is forwarded as `/b`, not verbatim. -/
theorem claim_c7_cex :
    ¬ ((buildTarget cranBase "/a/../b" none).path = "/a/../b") := by decide

/-- Splitting a raw path body on slashes (the inverse view used to
state when `set_path` is the identity). -/
def splitSegs : List Char → List (List Char)
  | [] => [[]]
  | c :: rest =>
    if c == '/' then [] :: splitSegs rest
    else
      match splitSegs rest with
      | s :: ss => (c :: s) :: ss
      | [] => [[c]]

/-- A segment that is neither a single-dot nor a double-dot spelling. -/
def goodSeg (seg : List Char) : Bool :=
  !(isSingleDotSeg seg) && !(isDoubleDotSeg seg)

/-- A character that `set_path` copies verbatim: not percent-encoded
and not the alternative separator. -/
def goodPathChar (c : Char) : Bool := !(pathEncSet c) && c != '\\'

/-- Paths on which `set_path` is verbatim: a leading slash, no encoded
or backslash characters, and no dot segments. -/
def goodPath (p : String) : Bool :=
  match p.toList with
  | [] => false
  | c :: rest => c == '/' && rest.all goodPathChar && (splitSegs rest).all goodSeg

/-- Queries on which `set_query` is verbatim. -/
def goodQuery (q : String) : Bool :=
  q.toList.all (fun c => !(specialQueryEncSet c))

theorem splitSegs_ne_nil : ∀ l : List Char, splitSegs l ≠ [] := by
  intro l
  cases l with
  | nil => simp [splitSegs]
  | cons c rest =>
    unfold splitSegs
    by_cases hc : (c == '/') = true
    · simp [hc]
    · simp only [hc]
      cases splitSegs rest <;> simp

theorem splitSegs_no_slash {l : List Char} (h : l.all (fun c => c != '/') = true) :
    splitSegs l = [l] := by
  induction l with
  | nil => rfl
  | cons c rest ih =>
    rw [List.all_cons, Bool.and_eq_true] at h
    have hc : (c == '/') = false := by
      have h1 := h.1
      simp only [bne] at h1
      rw [Bool.not_eq_true'] at h1
      exact h1
    rw [splitSegs, ih h.2]
    simp [hc]

theorem splitSegs_append_slash {buf : List Char} (rest : List Char)
    (h : buf.all (fun c => c != '/') = true) :
    splitSegs (buf ++ '/' :: rest) = buf :: splitSegs rest := by
  induction buf with
  | nil => simp [splitSegs]
  | cons c bs ih =>
    rw [List.all_cons, Bool.and_eq_true] at h
    have hc : (c == '/') = false := by
      have h1 := h.1
      simp only [bne] at h1
      rw [Bool.not_eq_true'] at h1
      exact h1
    rw [List.cons_append, splitSegs, ih h.2]
    simp [hc]

theorem joinSegs_split : ∀ l : List Char, joinSegs (splitSegs l) = l := by
  intro l
  induction l with
  | nil => rfl
  | cons c rest ih =>
    unfold splitSegs
    by_cases hc : (c == '/') = true
    · simp only [hc]
      have hr : c = '/' := eq_of_beq hc
      cases hsp : splitSegs rest with
      | nil => exact absurd hsp (splitSegs_ne_nil rest)
      | cons s ss =>
        rw [hsp] at ih
        subst hr
        show joinSegs ([] :: s :: ss) = _
        unfold joinSegs
        rw [show ([] : List Char) ++ '/' :: joinSegs (s :: ss) = '/' :: joinSegs (s :: ss)
          from rfl]
        rw [ih]
    · simp only [hc]
      cases hsp : splitSegs rest with
      | nil => exact absurd hsp (splitSegs_ne_nil rest)
      | cons s ss =>
        rw [hsp] at ih
        cases ss with
        | nil =>
          show joinSegs [c :: s] = c :: rest
          unfold joinSegs
          rw [show joinSegs [s] = s from rfl] at ih
          rw [ih]
        | cons s2 ss2 =>
          show joinSegs ((c :: s) :: s2 :: ss2) = c :: rest
          unfold joinSegs
          rw [show (c :: s) ++ '/' :: joinSegs (s2 :: ss2)
            = c :: (s ++ '/' :: joinSegs (s2 :: ss2)) from rfl]
          rw [show s ++ '/' :: joinSegs (s2 :: ss2) = joinSegs (s :: s2 :: ss2) from rfl]
          rw [ih]

theorem all_mp {l : List Char} {p q : Char → Bool} (h : l.all p = true)
    (himp : ∀ c, p c = true → q c = true) : l.all q = true := by
  rw [List.all_eq_true] at h ⊢
  intro c hc
  exact himp c (h c hc)

theorem encSeg_id {seg : List Char}
    (h : seg.all (fun c => !(pathEncSet c)) = true) : encSeg seg = seg := by
  induction seg with
  | nil => rfl
  | cons c rest ih =>
    rw [List.all_cons, Bool.and_eq_true] at h
    have hc : pathEncSet c = false := by
      have h1 := h.1
      rw [Bool.not_eq_true'] at h1
      exact h1
    have hrec := ih h.2
    show (if pathEncSet c then pctEncode c else [c]) ++ encSeg rest = c :: rest
    rw [hc]
    show [c] ++ encSeg rest = c :: rest
    rw [hrec]
    rfl

theorem flushSeg_good {buf : List Char} (acc : List (List Char)) (b : Bool)
    (h1 : goodSeg buf = true) (h2 : buf.all (fun c => !(pathEncSet c)) = true) :
    flushSeg acc buf b = acc ++ [buf] := by
  unfold goodSeg at h1
  rw [Bool.and_eq_true] at h1
  have hsd : isSingleDotSeg buf = false := by
    have hx := h1.1
    rw [Bool.not_eq_true'] at hx
    exact hx
  have hdd : isDoubleDotSeg buf = false := by
    have hx := h1.2
    rw [Bool.not_eq_true'] at hx
    exact hx
  unfold flushSeg
  rw [hsd, hdd]
  simp [encSeg_id h2]

theorem pathGo_eq :
    ∀ (input buf : List Char) (acc : List (List Char)),
      input.all goodPathChar = true →
      buf.all (fun c => goodPathChar c && c != '/') = true →
      (splitSegs (buf ++ input)).all goodSeg = true →
      pathGo input buf acc = acc ++ splitSegs (buf ++ input) := by
  intro input
  induction input with
  | nil =>
    intro buf acc _ hbuf hseg
    rw [List.append_nil] at hseg ⊢
    have hnos : buf.all (fun c => c != '/') = true :=
      all_mp hbuf (fun c hx => by rw [Bool.and_eq_true] at hx; exact hx.2)
    have henc : buf.all (fun c => !(pathEncSet c)) = true :=
      all_mp hbuf (fun c hx => by
        rw [Bool.and_eq_true] at hx
        have h1 := hx.1
        unfold goodPathChar at h1
        rw [Bool.and_eq_true] at h1
        exact h1.1)
    rw [splitSegs_no_slash hnos] at hseg ⊢
    have hgs : goodSeg buf = true := by simpa using hseg
    show flushSeg acc buf false = acc ++ [buf]
    exact flushSeg_good acc false hgs henc
  | cons c rest ih =>
    intro buf acc hin hbuf hseg
    rw [List.all_cons, Bool.and_eq_true] at hin
    obtain ⟨hc, hrest⟩ := hin
    have hcg := hc
    unfold goodPathChar at hcg
    rw [Bool.and_eq_true] at hcg
    have hcnb : (c == '\\') = false := by
      have h1 := hcg.2
      simp only [bne] at h1
      rw [Bool.not_eq_true'] at h1
      exact h1
    by_cases hcs : (c == '/') = true
    · have hceq : c = '/' := eq_of_beq hcs
      subst hceq
      have hnos : buf.all (fun c => c != '/') = true :=
        all_mp hbuf (fun c hx => by rw [Bool.and_eq_true] at hx; exact hx.2)
      have henc : buf.all (fun c => !(pathEncSet c)) = true :=
        all_mp hbuf (fun c hx => by
          rw [Bool.and_eq_true] at hx
          have h1 := hx.1
          unfold goodPathChar at h1
          rw [Bool.and_eq_true] at h1
          exact h1.1)
      rw [splitSegs_append_slash rest hnos] at hseg
      rw [List.all_cons, Bool.and_eq_true] at hseg
      obtain ⟨hgbuf, hgrest⟩ := hseg
      have step : pathGo ('/' :: rest) buf acc = pathGo rest [] (flushSeg acc buf true) := by
        rw [pathGo]
        simp
      rw [step, flushSeg_good acc true hgbuf henc,
        ih [] (acc ++ [buf]) hrest rfl (by simpa using hgrest)]
      rw [List.nil_append, splitSegs_append_slash rest hnos, List.append_assoc]
      rfl
    · have hcond : ((c == '/') || (c == '\\')) = false := by
        have h0 : (c == '/') = false := by
          cases hx : c == '/'
          · rfl
          · exact absurd hx hcs
        rw [h0, hcnb]
        rfl
      have step : pathGo (c :: rest) buf acc = pathGo rest (buf ++ [c]) acc := by
        rw [pathGo]
        simp [hcond]
      have happ : (buf ++ [c]) ++ rest = buf ++ c :: rest := by simp
      have h2 : (buf ++ [c]).all (fun c => goodPathChar c && c != '/') = true := by
        rw [List.all_append, hbuf]
        have h0 : (c == '/') = false := by
          cases hx : c == '/'
          · rfl
          · exact absurd hx hcs
        simp [hc, bne, h0]
      have h3 : (splitSegs ((buf ++ [c]) ++ rest)).all goodSeg = true := by
        rw [happ]
        exact hseg
      rw [step, ih (buf ++ [c]) acc hrest h2 h3, happ]

theorem setQuery_id {q : String} (h : goodQuery q = true) : setQueryStr q = q := by
  unfold goodQuery at h
  unfold setQueryStr
  suffices haux : ∀ l : List Char, l.all (fun c => !(specialQueryEncSet c)) = true →
      l.flatMap (fun c => if specialQueryEncSet c then pctEncode c else [c]) = l by
    rw [haux q.toList h]
    rfl
  intro l hl
  induction l with
  | nil => rfl
  | cons c rest ih =>
    rw [List.all_cons, Bool.and_eq_true] at hl
    have hc : specialQueryEncSet c = false := by
      have h1 := hl.1
      rw [Bool.not_eq_true'] at h1
      exact h1
    show (if specialQueryEncSet c then pctEncode c else [c]) ++
        (rest.flatMap fun d => if specialQueryEncSet d then pctEncode d else [d]) = c :: rest
    rw [hc, ih hl.2]
    rfl

/-- C7 as amended: scheme, host and port of the outgoing target always
come from the configured upstream base, and path and query come from
the inbound URI, but through the URL library setters, which follow the
WHATWG algorithms: dot segments are collapsed and characters in the
path or special-query percent-encode sets are re-encoded.  On a path
with a leading slash, no backslash, no encode-set character and no dot
segment, and on a query free of special-query encode-set characters,
the copy is verbatim. -/
theorem claim_c7 (base : UrlT) (p : String) (q : Option String) :
    (buildTarget base p q).scheme = base.scheme ∧
    (buildTarget base p q).host = base.host ∧
    (buildTarget base p q).port = base.port ∧
    (goodPath p = true → (buildTarget base p q).path = p) ∧
    (q.all goodQuery = true → (buildTarget base p q).query = q) := by
  refine ⟨rfl, rfl, rfl, ?_, ?_⟩
  · intro hp
    show setPathStr p = p
    unfold goodPath at hp
    cases hpl : p.toList with
    | nil => rw [hpl] at hp; exact absurd hp (by simp)
    | cons c rest =>
      rw [hpl] at hp
      rw [Bool.and_eq_true, Bool.and_eq_true] at hp
      obtain ⟨⟨hc, hall⟩, hsegs⟩ := hp
      have hceq : c = '/' := eq_of_beq hc
      subst hceq
      unfold setPathStr
      rw [hpl]
      have hstrip : stripLeadSep ('/' :: rest) = rest := by
        rw [stripLeadSep]
        simp
      rw [hstrip, pathGo_eq rest [] [] hall rfl hsegs]
      rw [List.nil_append, List.nil_append, joinSegs_split]
      rw [← hpl]
      rfl
  · intro hq
    cases q with
    | none => rfl
    | some s =>
      show some (setQueryStr s) = some s
      rw [setQuery_id hq]

/-- Witness for C7 at a well-behaved concrete input: path and query of
an ordinary index request are copied verbatim. -/
theorem claim_c7_witness :
    (buildTarget cranBase "/src/contrib/PACKAGES" (some "x=1")).path
        = "/src/contrib/PACKAGES" ∧
    (buildTarget cranBase "/src/contrib/PACKAGES" (some "x=1")).query
        = some "x=1" :=
  ⟨(claim_c7 cranBase "/src/contrib/PACKAGES" (some "x=1")).2.2.2.1 (by decide),
   (claim_c7 cranBase "/src/contrib/PACKAGES" (some "x=1")).2.2.2.2 (by decide)⟩

/-! ## The proxy handler control flow -/

/-- HTTP method, distinguishing only what the handler distinguishes. -/
inductive Meth where
  | GET
  | HEAD
  | other (name : String)
deriving DecidableEq, Repr

/-- The `matches!(method, Method::GET | Method::HEAD)` test. -/
def isGetOrHead : Meth → Bool
  | .GET => true
  | .HEAD => true
  | .other _ => false

/-- One structured log line: either the `proxied` info record (wall
time omitted: elapsed latency is real time and carries no logical
content; the serialized descriptor is kept as the descriptor value) or
the `upstream_error` warning record. -/
inductive LogRecord where
  | proxied (path : String) (status : Nat) (ua range etagOut contentLength : String)
      (derived : CranInfo)
  | upstreamWarn (path ua : String)
deriving DecidableEq, Repr

/-- Whether a record is the failure-warning kind. -/
def isErrorLog : LogRecord → Bool
  | .proxied .. => false
  | .upstreamWarn .. => true

/-- `headers.get(n).and_then(to_str).unwrap_or("-")` (header values are
modelled as strings, so the to_str step cannot fail in the model). -/
def getHeader (n : String) (hs : List Header) : String :=
  match hs.find? (fun h => lowerAscii h.fst == n) with
  | some h => h.snd
  | none => "-"

/-- Everything observable about one run of the handler: the reply sent
to the client (`Except` mirrors the Rust `Result<Response, (StatusCode,
String)>`), the computed target, what happened to the inbound body,
whether the upstream call was made and failed, the body sent upstream,
and the emitted log records. -/
structure ProxyRun where
  reply : Except (Nat × String) HttpResp
  target : UrlT
  bodyReadAttempted : Bool
  bodyReadFailed : Bool
  upstreamCalled : Bool
  upstreamFailed : Bool
  sentBody : Option (List Nat)
  logs : List LogRecord
deriving Repr

/-- The send-and-respond tail of the handler, shared by the GET/HEAD
and the buffered-body paths: dispatch to upstream, log exactly one
record, and either return the 502 error or stream back the upstream
response. -/
def proxySend (target : UrlT) (pathStr : String) (ua range : String)
    (attempted : Bool) (sent : Option (List Nat))
    (upstream : Except Unit HttpResp) : ProxyRun :=
  match upstream with
  | .error _ =>
    { reply := .error (502, "upstream error"), target := target,
      bodyReadAttempted := attempted, bodyReadFailed := false,
      upstreamCalled := true, upstreamFailed := true, sentBody := sent,
      logs := [LogRecord.upstreamWarn pathStr ua] }
  | .ok r =>
    { reply := .ok (buildResponse r), target := target,
      bodyReadAttempted := attempted, bodyReadFailed := false,
      upstreamCalled := true, upstreamFailed := false, sentBody := sent,
      logs := [LogRecord.proxied pathStr r.status ua range
        (getHeader "etag" r.headers) (getHeader "content-length" r.headers)
        (parse_cran pathStr)] }

/-- The `proxy` handler of the source: build the target URL, sanitize
the inbound headers, read and forward the body only for non-GET/HEAD
methods (failing with 400 before any upstream call), then send and
relay.  The inbound body and the upstream call are modelled as
`Except` oracles: whether reading or sending would fail. -/
def proxy (base : UrlT) (m : Meth) (pathStr : String) (query : Option String)
    (hdrs : List Header) (body : Except Unit (List Nat))
    (upstream : Except Unit HttpResp) : ProxyRun :=
  let target := buildTarget base pathStr query
  let hdrs' := strip_hop_headers hdrs
  let ua := getHeader "user-agent" hdrs'
  let range := getHeader "range" hdrs'
  if isGetOrHead m then
    proxySend target pathStr ua range false none upstream
  else
    match body with
    | .error _ =>
      { reply := .error (400, "invalid request body"), target := target,
        bodyReadAttempted := true, bodyReadFailed := true,
        upstreamCalled := false, upstreamFailed := false, sentBody := none,
        logs := [] }
    | .ok bs => proxySend target pathStr ua range true (some bs) upstream

/-- C5: the handler replies with its own 400 error exactly when the
body read fails (which happens exactly on a non-GET/HEAD request whose
body cannot be collected, cf. C6), with its own 502 error exactly when
the upstream call is made and fails at the transport level, and in
every other case passes the upstream status through unchanged. -/
theorem claim_c5 (base : UrlT) (m : Meth) (pathStr : String)
    (query : Option String) (hdrs : List Header)
    (body : Except Unit (List Nat)) (upstream : Except Unit HttpResp) :
    ((proxy base m pathStr query hdrs body upstream).reply
        = Except.error (400, "invalid request body")
      ↔ (proxy base m pathStr query hdrs body upstream).bodyReadFailed = true) ∧
    ((proxy base m pathStr query hdrs body upstream).reply
        = Except.error (502, "upstream error")
      ↔ (proxy base m pathStr query hdrs body upstream).upstreamFailed = true) ∧
    ((proxy base m pathStr query hdrs body upstream).bodyReadFailed = false →
      (proxy base m pathStr query hdrs body upstream).upstreamFailed = false →
      ∃ r cr, upstream = Except.ok r ∧
        (proxy base m pathStr query hdrs body upstream).reply = Except.ok cr ∧
        cr.status = r.status) := by
  cases m <;> cases body <;> cases upstream <;>
    simp [proxy, proxySend, isGetOrHead, buildResponse]

/-- Witness for C5: a GET against a healthy upstream passes the
upstream status through. -/
theorem claim_c5_witness :
    ∃ r cr, (Except.ok { status := 200, headers := [] } : Except Unit HttpResp)
        = Except.ok r ∧
      (proxy cranBase Meth.GET "/p" none [] (Except.ok [])
        (Except.ok { status := 200, headers := [] })).reply = Except.ok cr ∧
      cr.status = r.status :=
  (claim_c5 cranBase Meth.GET "/p" none [] (Except.ok [])
    (Except.ok { status := 200, headers := [] })).2.2 (by decide) (by decide)

/-- C6: a GET or HEAD request never has its body read and the upstream
request carries no body, whatever the inbound body is; any other
method forwards the collected body bytes unchanged. -/
theorem claim_c6 (base : UrlT) (m : Meth) (pathStr : String)
    (query : Option String) (hdrs : List Header)
    (body : Except Unit (List Nat)) (upstream : Except Unit HttpResp) :
    (isGetOrHead m = true →
      (proxy base m pathStr query hdrs body upstream).bodyReadAttempted = false ∧
      (proxy base m pathStr query hdrs body upstream).sentBody = none) ∧
    (isGetOrHead m = false → ∀ bs, body = Except.ok bs →
      (proxy base m pathStr query hdrs body upstream).bodyReadAttempted = true ∧
      (proxy base m pathStr query hdrs body upstream).sentBody = some bs) := by
  cases m <;> cases body <;> cases upstream <;>
    simp [proxy, proxySend, isGetOrHead]

/-- Witness for C6: a GET with a present body does not read it, a POST
forwards its bytes byte for byte. -/
theorem claim_c6_witness :
    ((proxy cranBase Meth.GET "/p" none [] (Except.ok [7])
        (Except.ok { status := 200, headers := [] })).bodyReadAttempted = false ∧
      (proxy cranBase Meth.GET "/p" none [] (Except.ok [7])
        (Except.ok { status := 200, headers := [] })).sentBody = none) ∧
    ((proxy cranBase (Meth.other "POST") "/p" none [] (Except.ok [1, 2])
        (Except.ok { status := 200, headers := [] })).bodyReadAttempted = true ∧
      (proxy cranBase (Meth.other "POST") "/p" none [] (Except.ok [1, 2])
        (Except.ok { status := 200, headers := [] })).sentBody = some [1, 2]) :=
  ⟨(claim_c6 cranBase Meth.GET "/p" none [] (Except.ok [7])
      (Except.ok { status := 200, headers := [] })).1 rfl,
   (claim_c6 cranBase (Meth.other "POST") "/p" none [] (Except.ok [1, 2])
      (Except.ok { status := 200, headers := [] })).2 rfl [1, 2] rfl⟩

/-- Counterexample to C8 as stated: a non-GET/HEAD request whose body
cannot be read is answered with the 400 error and emits no log record
at all, so not every request produces exactly one record. -/
theorem claim_c8_cex :
    ¬ ((proxy cranBase (Meth.other "POST") "/src/contrib/PACKAGES" none []
        (Except.error ()) (Except.ok { status := 200, headers := [] })).logs.length
      = 1) := by decide

/-- C8 as amended: a request failing the inbound body read produces no
log record; every other request produces exactly one record, of the
warning kind exactly when the upstream transport call failed and of
the ObservationRecord kind otherwise, never both kinds and never two
records. -/
theorem claim_c8 (base : UrlT) (m : Meth) (pathStr : String)
    (query : Option String) (hdrs : List Header)
    (body : Except Unit (List Nat)) (upstream : Except Unit HttpResp) :
    ((proxy base m pathStr query hdrs body upstream).bodyReadFailed = true →
      (proxy base m pathStr query hdrs body upstream).logs = []) ∧
    ((proxy base m pathStr query hdrs body upstream).bodyReadFailed = false →
      (proxy base m pathStr query hdrs body upstream).logs.length = 1 ∧
      ∀ l ∈ (proxy base m pathStr query hdrs body upstream).logs,
        isErrorLog l = (proxy base m pathStr query hdrs body upstream).upstreamFailed) := by
  cases m <;> cases body <;> cases upstream <;>
    simp [proxy, proxySend, isGetOrHead, isErrorLog]

/-- Witness for C8: a POST with readable body against a refused
upstream emits exactly one record, of the warning kind. -/
theorem claim_c8_witness :
    (proxy cranBase (Meth.other "POST") "/p" none [] (Except.ok [])
        (Except.error ())).logs.length = 1 ∧
    ∀ l ∈ (proxy cranBase (Meth.other "POST") "/p" none [] (Except.ok [])
        (Except.error ())).logs,
      isErrorLog l = (proxy cranBase (Meth.other "POST") "/p" none [] (Except.ok [])
        (Except.error ())).upstreamFailed :=
  (claim_c8 cranBase (Meth.other "POST") "/p" none [] (Except.ok [])
    (Except.error ())).2 (by decide)
